import Mathlib

/-! Shallow embedding of pane.go (package tmux). -/

/-- Character class `[0-9]` of the listing regex. -/
def isDigitC (c : Char) : Bool := 48 ≤ c.toNat && c.toNat ≤ 57

/-- Numeric value of a decimal digit character. -/
def digitVal (c : Char) : Nat := c.toNat - 48

/-- Base-10 value of a big-endian digit string (accumulator fold, as in strconv). -/
def digitsToNat (l : List Char) : Nat := l.foldl (fun a c => a * 10 + digitVal c) 0

/-- The decimal digit character for a value below ten. -/
def digitChar (d : Nat) : Char := Char.ofNat (48 + d)

/-- Fuel-indexed decimal rendering of a natural number (fuel bounds the recursion). -/
def natToDigitsAux : Nat → Nat → List Char
  | 0, _ => []
  | fuel + 1, n =>
    if n < 10 then [digitChar n]
    else natToDigitsAux fuel (n / 10) ++ [digitChar (n % 10)]

/-- Decimal digit string of a natural number, as Go fmt `%d` renders it. -/
def natToDigits (n : Nat) : List Char := natToDigitsAux (n + 1) n

/-- Go fmt `%d` rendering of a (64-bit) integer. -/
def intToStr : Int → String
  | .ofNat n => ⟨natToDigits n⟩
  | .negSucc n => ⟨'-' :: natToDigits (n + 1)⟩

/-- Model of Go strconv.Atoi on a 64-bit platform: returns the parsed value and a
success flag. A syntax error yields value 0; an out-of-range value yields the
clamped extreme (maxInt64 or minInt64), as strconv.ParseInt documents. -/
def goAtoiFull (l : List Char) : Int × Bool :=
  let sd : Bool × List Char :=
    match l with
    | c :: rest => if c = '-' then (true, rest) else if c = '+' then (false, rest) else (false, l)
    | [] => (false, l)
  let neg := sd.1
  let ds := sd.2
  if ds = [] then (0, false)
  else if ds.all isDigitC then
    let n := digitsToNat ds
    if neg then
      if n > 2 ^ 63 then (-(2 ^ 63), false) else (-(n : Int), true)
    else
      if n ≥ 2 ^ 63 then (2 ^ 63 - 1, false) else ((n : Int), true)
  else (0, false)

/-- Errors surfaced by ListPanes: a Command Runner failure or a strconv.Atoi failure. -/
inductive GoError where
  | runErr (msg : String)
  | atoiErr
deriving DecidableEq, Repr

/-- The `sessionID, errAtoi := strconv.Atoi(...)` pattern of ListPanes: the error
aborts, otherwise the value is used. -/
def goAtoi (l : List Char) : Except GoError Int :=
  let r := goAtoiFull l
  if r.2 then .ok r.1 else .error .atoiErr

/-- The Pane entity (pane.go lines 17-25). -/
structure Pane where
  ID : Int
  SessionId : Int
  SessionName : String
  WindowId : Int
  WindowName : String
  WindowIndex : Int
  Active : Bool
deriving DecidableEq, Repr

/-- The Command Runner collaborator: argument vector to (stdout, stderr, error). -/
def Runner : Type := List String → List Char × List Char × Option String

/-- A runner with a fixed response, used to express claims about one invocation. -/
def constRunner (out stderr : List Char) (e : Option String) : Runner := fun _ => (out, stderr, e)

/-- Window-level target string `SessionName:WindowId` (fmt.Sprintf in SetFocus/MovePane). -/
def windowTarget (p : Pane) : String := p.SessionName ++ ":" ++ intToStr p.WindowId

/-- Pane-level target string `SessionName:WindowId.ID`. -/
def paneTarget (p : Pane) : String :=
  p.SessionName ++ ":" ++ intToStr p.WindowId ++ "." ++ intToStr p.ID

/-! The listing regex `\$([0-9]+):(.+):@([0-9]+):(.+):([0-9]+):%([0-9]+):([01])`
is embedded as a backtracking matcher with Go's leftmost-first semantics:
a greedy `X+` prefers the longest repetition for which the continuation of the
pattern succeeds, and the whole pattern is tried at each start position
from the left. -/

/-- Consume one expected literal character. -/
def expectChar (c : Char) : List Char → Option (List Char)
  | x :: rest => if x = c then some rest else none
  | [] => none

/-- The regex metacharacter `.` (Go default: any character except newline). -/
def dotC (c : Char) : Bool := c != '\n'

/-- Greedy `cls+`: consume one or more characters of class `p`, preferring the
longest repetition whose continuation `k` succeeds (leftmost-first backtracking). -/
def greedyPlusCls (p : Char → Bool) (k : List Char → Option α) : List Char → Option (List Char × α)
  | [] => none
  | c :: cs =>
    if p c then
      match greedyPlusCls p k cs with
      | some (pre, a) => some (c :: pre, a)
      | none =>
        match k cs with
        | some a => some ([c], a)
        | none => none
    else none

/-- Continuation after group 6: literal `:` then group 7 `[01]` (rest unanchored). -/
def kG7 (l : List Char) : Option (List Char) :=
  (expectChar ':' l).bind fun l1 =>
    match l1 with
    | c :: _ => if c = '0' ∨ c = '1' then some [c] else none
    | [] => none

/-- Continuation after group 5: literal `:%` then group 6 `[0-9]+` then kG7. -/
def kG6 (l : List Char) : Option (List Char × List Char) :=
  (expectChar ':' l).bind fun l1 =>
    (expectChar '%' l1).bind fun l2 =>
      greedyPlusCls isDigitC kG7 l2

/-- Continuation after group 4: literal `:` then group 5 `[0-9]+` then kG6. -/
def kG5 (l : List Char) : Option (List Char × List Char × List Char) :=
  (expectChar ':' l).bind (greedyPlusCls isDigitC kG6)

/-- Continuation after group 3: literal `:` then group 4 `(.+)` then kG5. -/
def kG4 (l : List Char) : Option (List Char × List Char × List Char × List Char) :=
  (expectChar ':' l).bind (greedyPlusCls dotC kG5)

/-- Continuation after group 2: literal `:@` then group 3 `[0-9]+` then kG4. -/
def kG3 (l : List Char) : Option (List Char × List Char × List Char × List Char × List Char) :=
  (expectChar ':' l).bind fun l1 =>
    (expectChar '@' l1).bind (greedyPlusCls isDigitC kG4)

/-- Continuation after group 1: literal `:` then group 2 `(.+)` then kG3. -/
def kG2 (l : List Char) :
    Option (List Char × List Char × List Char × List Char × List Char × List Char) :=
  (expectChar ':' l).bind (greedyPlusCls dotC kG3)

/-- The seven submatches of the listing regex. -/
structure Caps where
  g1 : List Char
  g2 : List Char
  g3 : List Char
  g4 : List Char
  g5 : List Char
  g6 : List Char
  g7 : List Char
deriving DecidableEq, Repr

/-- Match the listing regex anchored at the start of `l` (trailing text allowed). -/
def matchAt (l : List Char) : Option Caps :=
  ((expectChar '$' l).bind (greedyPlusCls isDigitC kG2)).map fun r =>
    ⟨r.1, r.2.1, r.2.2.1, r.2.2.2.1, r.2.2.2.2.1, r.2.2.2.2.2.1, r.2.2.2.2.2.2⟩

/-- regexp.FindStringSubmatch: try the pattern at each start position, leftmost first. -/
def findSubmatch : List Char → Option Caps
  | [] => matchAt []
  | c :: rest => (matchAt (c :: rest)).orElse fun _ => findSubmatch rest

/-- strings.Split(out, newline). -/
def splitLines : List Char → List (List Char)
  | [] => [[]]
  | c :: rest =>
    match splitLines rest with
    | [] => [[c]]
    | l :: ls => if c = '\n' then [] :: l :: ls else (c :: l) :: ls

/-- strings.SplitN(s, sep, 2) for a one-character separator: the part before the
first occurrence, and (when the separator occurs) the part after it. -/
def splitN2 (sep : Char) : List Char → List Char × Option (List Char)
  | [] => ([], none)
  | c :: rest =>
    if c = sep then ([], some rest)
    else
      match splitN2 sep rest with
      | (a, b) => (c :: a, b)

/-- The loop body of ListPanes over the split output lines: skip lines the regex
does not match; on a match, Atoi the four numeric captures (any failure aborts
the whole call) and append the decoded Pane. -/
def parseLines : List (List Char) → Except GoError (List Pane)
  | [] => .ok []
  | line :: rest =>
    match findSubmatch line with
    | none => parseLines rest
    | some c =>
      match goAtoi c.g1 with
      | .error e => .error e
      | .ok sessionID =>
        match goAtoi c.g3 with
        | .error e => .error e
        | .ok windowID =>
          match goAtoi c.g5 with
          | .error e => .error e
          | .ok windowIndex =>
            match goAtoi c.g6 with
            | .error e => .error e
            | .ok paneIndex =>
              (parseLines rest).map fun panes =>
                { SessionId := sessionID, SessionName := ⟨c.g2⟩, WindowId := windowID,
                  WindowName := ⟨c.g4⟩, WindowIndex := windowIndex, ID := paneIndex,
                  Active := c.g7 == ['1'] } :: panes

/-- The `-F` format string: seven field tokens joined by `:`. -/
def listFormat : String :=
  String.intercalate ":"
    ["#{session_id}", "#{session_name}", "#{window_id}", "#{window_name}",
     "#{window_index}", "#{pane_id}", "#{pane_active}"]

/-- ListPanes: prepend the listing verb and format, run, propagate a runner error,
otherwise split stdout into lines and decode them. -/
def ListPanes (args : List String) (runner : Runner) : Except GoError (List Pane) :=
  let r := runner (["list-panes", "-F", listFormat] ++ args)
  match r.2.2 with
  | some msg => .error (.runErr msg)
  | none => parseLines (splitLines r.1)

/-- GetCurrentPath: display-message query; on success drop the final character of
stdout (a panic — modelled as `none` — when stdout is empty). -/
def Pane.GetCurrentPath (_p : Pane) (runner : Runner) : Option (List Char × Option String) :=
  let r := runner ["display-message", "-P", "-F", "#{pane_current_path}"]
  match r.2.2 with
  | some e => some ([], some e)
  | none => if r.1 = [] then none else some (r.1.dropLast, none)

/-- SetFocus: select-window on the window target, then select-pane on the pane
target; both runner invocations happen (their argument vectors are returned in
order) and the returned error is the second invocation's. -/
def Pane.SetFocus (p : Pane) (runner : Runner) : List (List String) × Option String :=
  let args1 := ["select-window", "-t", windowTarget p]
  let _r1 := runner args1
  let args2 := ["select-pane", "-t", paneTarget p]
  let r2 := runner args2
  ([args1, args2], r2.2.2)

/-- MovePane: join-pane from this pane's target to the destination's window target
(`-d` appended when focus is false); WindowName/WindowId of the source pane are
overwritten from the destination whatever the runner returned. Returns the
updated source pane, the (untouched) destination pane, and the runner's error. -/
def Pane.MovePane (p pane_target : Pane) (focus : Bool) (runner : Runner) :
    Pane × Pane × Option String :=
  let args := ["join-pane", "-s", paneTarget p, "-t", windowTarget pane_target] ++
    (if focus then [] else ["-d"])
  let r := runner args
  ({ p with WindowName := pane_target.WindowName, WindowId := pane_target.WindowId },
   pane_target, r.2.2)

/-- GetCurrentSize: display-message `WxH` query; on success drop the final
character of stdout, split at the first `x`, Atoi both halves keeping only the
values. Panics (`none`) when stdout is empty or the stripped output has no `x`. -/
def Pane.GetCurrentSize (p : Pane) (runner : Runner) : Option (Int × Int × Option String) :=
  let r := runner
    ["display-message", "-p", "-t", paneTarget p, "-F", "#{pane_width}x#{pane_height}"]
  match r.2.2 with
  | some e => some (0, 0, some e)
  | none =>
    if r.1 = [] then none
    else
      match splitN2 'x' r.1.dropLast with
      | (w, some h) => some ((goAtoiFull w).1, (goAtoiFull h).1, none)
      | (_, none) => none

/-- Capture: capture-pane `-p`; on runner failure return the captured stderr with
the error, on success return stdout untouched. -/
def Pane.Capture (p : Pane) (runner : Runner) : List Char × Option String :=
  let r := runner ["capture-pane", "-t", paneTarget p, "-p"]
  match r.2.2 with
  | some e => (r.2.1, some e)
  | none => (r.1, none)


/-! Specification vocabulary for the listing claims: a well-formed listing line is
the encoding of seven field values in the fixed output format. -/

/-- The seven field values behind one well-formed listing line. -/
structure LineFields where
  sessionId : Nat
  sname : List Char
  windowId : Nat
  wname : List Char
  windowIndex : Nat
  paneId : Nat
  active : Bool
deriving DecidableEq, Repr

/-- The pane_active flag character. -/
def flagChar (a : Bool) : Char := if a then '1' else '0'

/-- The listing output line `$sid:sname:@wid:wname:widx:%pid:flag` for the fields. -/
def encodeLine (f : LineFields) : List Char :=
  '$' :: (natToDigits f.sessionId ++ ':' ::
    (f.sname ++ ':' :: '@' ::
      (natToDigits f.windowId ++ ':' ::
        (f.wname ++ ':' ::
          (natToDigits f.windowIndex ++ ':' :: '%' ::
            (natToDigits f.paneId ++ ':' :: [flagChar f.active]))))))

/-- The Pane record the parser must decode from a well-formed line. -/
def paneOf (f : LineFields) : Pane :=
  { ID := (f.paneId : Int), SessionId := (f.sessionId : Int), SessionName := ⟨f.sname⟩,
    WindowId := (f.windowId : Int), WindowName := ⟨f.wname⟩,
    WindowIndex := (f.windowIndex : Int), Active := f.active }

/-- Side conditions under which a line encoding is unambiguous and its numbers
are decodable: nonempty names without the structural delimiters, and numeric
fields in the 64-bit Atoi range. -/
def validFields (f : LineFields) : Prop :=
  f.sname ≠ [] ∧ (∀ c ∈ f.sname, c ≠ '\n') ∧
  f.wname ≠ [] ∧ (∀ c ∈ f.wname, c ≠ ':' ∧ c ≠ '@' ∧ c ≠ '\n') ∧
  f.sessionId < 2 ^ 63 ∧ f.windowId < 2 ^ 63 ∧ f.windowIndex < 2 ^ 63 ∧ f.paneId < 2 ^ 63

instance (f : LineFields) : Decidable (validFields f) := by
  unfold validFields; infer_instance

/-- One item of interleaved listing output: a well-formed line or a noise line. -/
def renderItem : LineFields ⊕ List Char → List Char
  | .inl f => encodeLine f
  | .inr s => s

/-- A good item: a well-formed line with valid fields, or a noise line the regex
does not match anywhere (and which contains no newline, being a single line). -/
def GoodItem : LineFields ⊕ List Char → Prop
  | .inl f => validFields f
  | .inr s => findSubmatch s = none ∧ ∀ c ∈ s, c ≠ '\n'

instance : DecidablePred GoodItem := fun it =>
  match it with
  | .inl f => (inferInstance : Decidable (validFields f))
  | .inr s => (inferInstance : Decidable (findSubmatch s = none ∧ ∀ c ∈ s, c ≠ '\n'))

instance (l : List (LineFields ⊕ List Char)) : Decidable (∀ it ∈ l, GoodItem it) :=
  List.decidableBAll GoodItem l

/-- The pane an item contributes to the expected listing result, if any. -/
def itemPane : LineFields ⊕ List Char → Option Pane
  | .inl f => some (paneOf f)
  | .inr _ => none

/-- strings.Join of lines with a newline separator (inverse of splitLines). -/
def joinLines : List (List Char) → List Char
  | [] => []
  | [l] => l
  | l :: ls => l ++ '\n' :: joinLines ls

/-- Whether a matched line makes the four Atoi calls of the listing loop fail. -/
def isAtoiError : Except GoError Int → Bool
  | .error _ => true
  | .ok _ => false

/-- A line on which the regex matches but one of the four numeric captures fails
to Atoi (fatal to the whole listing call). -/
def lineAtoiFails (l : List Char) : Bool :=
  match findSubmatch l with
  | some c =>
    isAtoiError (goAtoi c.g1) || isAtoiError (goAtoi c.g3) ||
    isAtoiError (goAtoi c.g5) || isAtoiError (goAtoi c.g6)
  | none => false

/-! Digit-string lemmas. -/

theorem digitVal_digitChar (d : Nat) (h : d < 10) : digitVal (digitChar d) = d := by
  interval_cases d <;> decide

theorem isDigitC_digitChar (d : Nat) (h : d < 10) : isDigitC (digitChar d) = true := by
  interval_cases d <;> decide

theorem digitsToNat_append_singleton (l : List Char) (c : Char) :
    digitsToNat (l ++ [c]) = digitsToNat l * 10 + digitVal c := by
  simp [digitsToNat, List.foldl_append]

theorem natToDigitsAux_ne_nil (fuel n : Nat) (h : n < fuel) : natToDigitsAux fuel n ≠ [] := by
  cases fuel with
  | zero => omega
  | succ fuel =>
    by_cases h10 : n < 10 <;> simp [natToDigitsAux, h10]

theorem natToDigitsAux_all_digit (fuel : Nat) :
    ∀ n, n < fuel → ∀ c ∈ natToDigitsAux fuel n, isDigitC c = true := by
  induction fuel with
  | zero => omega
  | succ fuel ih =>
    intro n h c hc
    by_cases h10 : n < 10
    · simp [natToDigitsAux, h10] at hc
      exact hc ▸ isDigitC_digitChar n h10
    · simp [natToDigitsAux, h10] at hc
      rcases hc with hc | hc
      · exact ih (n / 10) (by omega) c hc
      · exact hc ▸ isDigitC_digitChar (n % 10) (by omega)

theorem digitsToNat_natToDigitsAux (fuel : Nat) :
    ∀ n, n < fuel → digitsToNat (natToDigitsAux fuel n) = n := by
  induction fuel with
  | zero => omega
  | succ fuel ih =>
    intro n h
    by_cases h10 : n < 10
    · simp [natToDigitsAux, h10, digitsToNat, digitVal_digitChar n h10]
    · rw [natToDigitsAux, if_neg h10, digitsToNat_append_singleton,
        ih (n / 10) (by omega), digitVal_digitChar (n % 10) (by omega)]
      omega

theorem natToDigits_ne_nil (n : Nat) : natToDigits n ≠ [] :=
  natToDigitsAux_ne_nil (n + 1) n (Nat.lt_succ_self n)

theorem natToDigits_all_digit (n : Nat) : ∀ c ∈ natToDigits n, isDigitC c = true :=
  natToDigitsAux_all_digit (n + 1) n (Nat.lt_succ_self n)

theorem digitsToNat_natToDigits (n : Nat) : digitsToNat (natToDigits n) = n :=
  digitsToNat_natToDigitsAux (n + 1) n (Nat.lt_succ_self n)

theorem isDigitC_ne_special (c : Char) (h : isDigitC c = true) :
    c ≠ ':' ∧ c ≠ '@' ∧ c ≠ '%' ∧ c ≠ '\n' ∧ c ≠ '-' ∧ c ≠ '+' ∧ c ≠ '$' := by
  refine ⟨?_, ?_, ?_, ?_, ?_, ?_, ?_⟩ <;> rintro rfl <;> exact absurd h (by decide)

theorem goAtoiFull_digits (l : List Char) (hne : l ≠ []) (hall : ∀ c ∈ l, isDigitC c = true)
    (hlt : digitsToNat l < 2 ^ 63) : goAtoiFull l = ((digitsToNat l : Int), true) := by
  obtain ⟨c, t, rfl⟩ := List.exists_cons_of_ne_nil hne
  have hc := hall c (List.mem_cons_self c t)
  obtain ⟨_, _, _, _, h5, h6, _⟩ := isDigitC_ne_special c hc
  have hds : (c :: t).all isDigitC = true := by
    simp only [List.all_eq_true]; exact hall
  have hpow : (2 : Nat) ^ 63 = 9223372036854775808 := by norm_num
  have hlt2 : digitsToNat (c :: t) < 9223372036854775808 := by omega
  simp [goAtoiFull, h5, h6, hds, hlt, Nat.not_le.mpr hlt, hlt2]

theorem goAtoi_natToDigits (n : Nat) (h : n < 2 ^ 63) :
    goAtoi (natToDigits n) = .ok (n : Int) := by
  rw [goAtoi, goAtoiFull_digits (natToDigits n) (natToDigits_ne_nil n)
    (natToDigits_all_digit n) (by rw [digitsToNat_natToDigits]; exact h)]
  simp [digitsToNat_natToDigits]

/-! Suffix decomposition lemmas. -/

theorem suffix_cons_cases {r : List Char} {c : Char} {t : List Char} (h : r <:+ c :: t) :
    r = c :: t ∨ r <:+ t :=
  List.suffix_cons_iff.mp h

theorem suffix_append_cases {r a b : List Char} (h : r <:+ a ++ b) :
    r <:+ b ∨ ∃ s, s <:+ a ∧ s ≠ [] ∧ r = s ++ b := by
  induction a with
  | nil => exact Or.inl (by simpa using h)
  | cons c a ih =>
    rcases suffix_cons_cases (by simpa using h) with h1 | h1
    · exact Or.inr ⟨c :: a, List.suffix_refl _, by simp, h1⟩
    · rcases ih h1 with h2 | ⟨s, hs, hne, rfl⟩
      · exact Or.inl h2
      · exact Or.inr ⟨s, hs.trans (List.suffix_cons c a), hne, rfl⟩

/-! Greedy-plus lemmas: leftmost-first behaviour on decomposed inputs. -/

theorem greedyPlusCls_head_fail {α : Type} (p : Char → Bool) (k : List Char → Option α)
    (c : Char) (t : List Char) (h : p c = false) : greedyPlusCls p k (c :: t) = none := by
  simp [greedyPlusCls, h]

theorem greedyPlusCls_cons_some {α : Type} (p : Char → Bool) (k : List Char → Option α)
    (c : Char) (cs pre : List Char) (a : α) (hc : p c = true)
    (hinner : greedyPlusCls p k cs = some (pre, a)) :
    greedyPlusCls p k (c :: cs) = some (c :: pre, a) := by
  simp only [greedyPlusCls, hinner, hc, if_true]

theorem greedyPlusCls_none {α : Type} (p : Char → Bool) (k : List Char → Option α) :
    ∀ l, (∀ r, r <:+ l → r.length < l.length → k r = none) → greedyPlusCls p k l = none := by
  intro l
  induction l with
  | nil => intro _; rfl
  | cons c cs ih =>
    intro h
    by_cases hp : p c
    · have h1 : greedyPlusCls p k cs = none :=
        ih fun r hr hlen => h r (hr.trans (List.suffix_cons c cs)) (by simp; omega)
      have h2 : k cs = none := h cs (List.suffix_cons c cs) (by simp)
      simp [greedyPlusCls, hp, h1, h2]
    · simp [greedyPlusCls, hp]

theorem greedyPlusCls_append_stop {α : Type} (p : Char → Bool) (k : List Char → Option α)
    (suf : List Char) (a : α) (hstop : ∀ c, suf.head? = some c → p c = false)
    (hk : k suf = some a) :
    ∀ pre, pre ≠ [] → (∀ c ∈ pre, p c = true) →
      greedyPlusCls p k (pre ++ suf) = some (pre, a) := by
  intro pre
  induction pre with
  | nil => intro hpre; exact absurd rfl hpre
  | cons c pre ih =>
    intro _ hall
    cases pre with
    | nil =>
      have hc := hall c (by simp)
      have hnone : greedyPlusCls p k suf = none := by
        cases suf with
        | nil => rfl
        | cons d t => exact greedyPlusCls_head_fail p k d t (hstop d rfl)
      simp [greedyPlusCls, hc, hnone, hk]
    | cons c2 pre2 =>
      have hih := ih (by simp) (fun x hx => hall x (List.mem_cons_of_mem c hx))
      simp only [List.cons_append] at hih ⊢
      exact greedyPlusCls_cons_some p k c _ _ a (hall c (by simp)) hih

theorem greedyPlusCls_append_kfail {α : Type} (p : Char → Bool) (k : List Char → Option α)
    (suf : List Char) (a : α)
    (hfail : ∀ r, r <:+ suf → r.length < suf.length → k r = none) (hk : k suf = some a) :
    ∀ pre, pre ≠ [] → (∀ c ∈ pre, p c = true) →
      greedyPlusCls p k (pre ++ suf) = some (pre, a) := by
  intro pre
  induction pre with
  | nil => intro hpre; exact absurd rfl hpre
  | cons c pre ih =>
    intro _ hall
    cases pre with
    | nil =>
      have hc := hall c (by simp)
      have hnone : greedyPlusCls p k suf = none := greedyPlusCls_none p k suf hfail
      simp [greedyPlusCls, hc, hnone, hk]
    | cons c2 pre2 =>
      have hih := ih (by simp) (fun x hx => hall x (List.mem_cons_of_mem c hx))
      simp only [List.cons_append] at hih ⊢
      exact greedyPlusCls_cons_some p k c _ _ a (hall c (by simp)) hih

/-! Continuation evaluation and failure lemmas. -/

theorem kG3_head (c : Char) (t : List Char) (h : c ≠ ':') : kG3 (c :: t) = none := by
  simp [kG3, expectChar, h]

theorem kG3_second (c : Char) (t : List Char) (h : c ≠ '@') : kG3 (':' :: c :: t) = none := by
  simp [kG3, expectChar, h]

theorem kG5_head (c : Char) (t : List Char) (h : c ≠ ':') : kG5 (c :: t) = none := by
  simp [kG5, expectChar, h]

theorem kG2_colon (t : List Char) : kG2 (':' :: t) = greedyPlusCls dotC kG3 t := by
  simp [kG2, expectChar]

theorem kG3_colon_at (t : List Char) : kG3 (':' :: '@' :: t) = greedyPlusCls isDigitC kG4 t := by
  simp [kG3, expectChar]

theorem kG4_colon (t : List Char) : kG4 (':' :: t) = greedyPlusCls dotC kG5 t := by
  simp [kG4, expectChar]

theorem kG5_colon (t : List Char) : kG5 (':' :: t) = greedyPlusCls isDigitC kG6 t := by
  simp [kG5, expectChar]

theorem kG6_colon_pct (t : List Char) : kG6 (':' :: '%' :: t) = greedyPlusCls isDigitC kG7 t := by
  simp [kG6, expectChar]

theorem kG7_colon_flag (fc : Char) (hfc : fc = '0' ∨ fc = '1') (t : List Char) :
    kG7 (':' :: fc :: t) = some [fc] := by
  rcases hfc with rfl | rfl <;> simp [kG7, expectChar]

/-- The continuation after group 4 fails on every proper suffix of the fixed tail
`:widx:%pid:flag`, so the greedy group 4 cannot extend past the window name. -/
theorem kG5_fail_suffixes (widx pid : Nat) (fc : Char) (hfc : fc = '0' ∨ fc = '1') :
    ∀ r, r <:+ (':' :: (natToDigits widx ++ ':' :: '%' :: (natToDigits pid ++ ':' :: [fc]))) →
      r.length < (':' :: (natToDigits widx ++ ':' :: '%' ::
        (natToDigits pid ++ ':' :: [fc]))).length →
      kG5 r = none := by
  intro r hr hlen
  rcases suffix_cons_cases hr with rfl | hr1
  · exact absurd hlen (lt_irrefl _)
  · rcases suffix_append_cases hr1 with hr2 | ⟨s, hs, hne, rfl⟩
    · rcases suffix_cons_cases hr2 with rfl | hr3
      · rw [kG5_colon]
        exact greedyPlusCls_head_fail isDigitC kG6 '%' _ (by decide)
      · rcases suffix_cons_cases hr3 with rfl | hr4
        · exact kG5_head '%' _ (by decide)
        · rcases suffix_append_cases hr4 with hr5 | ⟨s, hs, hne, rfl⟩
          · rcases suffix_cons_cases hr5 with rfl | hr6
            · rcases hfc with rfl | rfl <;> decide
            · rcases suffix_cons_cases hr6 with rfl | hr7
              · rcases hfc with rfl | rfl <;> decide
              · have h0 := List.suffix_nil.mp hr7
                subst h0; rfl
          · obtain ⟨c, t, rfl⟩ := List.exists_cons_of_ne_nil hne
            have hc := natToDigits_all_digit pid c (hs.subset (List.mem_cons_self c t))
            rw [List.cons_append]
            exact kG5_head c _ (isDigitC_ne_special c hc).1
    · obtain ⟨c, t, rfl⟩ := List.exists_cons_of_ne_nil hne
      have hc := natToDigits_all_digit widx c (hs.subset (List.mem_cons_self c t))
      rw [List.cons_append]
      exact kG5_head c _ (isDigitC_ne_special c hc).1

/-- The continuation after group 2 fails on every proper suffix of the tail
`:@wid:wname:widx:%pid:flag` (for a window name without `:` or `@`), so the
greedy group 2 cannot extend past the session name. -/
theorem kG3_fail_suffixes (wid widx pid : Nat) (wname : List Char) (fc : Char)
    (hfc : fc = '0' ∨ fc = '1') (hwne : wname ≠ [])
    (hw : ∀ c ∈ wname, c ≠ ':' ∧ c ≠ '@' ∧ c ≠ '\n') :
    ∀ r, r <:+ (':' :: '@' :: (natToDigits wid ++ ':' :: (wname ++ ':' ::
        (natToDigits widx ++ ':' :: '%' :: (natToDigits pid ++ ':' :: [fc]))))) →
      r.length < (':' :: '@' :: (natToDigits wid ++ ':' :: (wname ++ ':' ::
        (natToDigits widx ++ ':' :: '%' :: (natToDigits pid ++ ':' :: [fc]))))).length →
      kG3 r = none := by
  intro r hr hlen
  rcases suffix_cons_cases hr with rfl | hr1
  · exact absurd hlen (lt_irrefl _)
  · rcases suffix_cons_cases hr1 with rfl | hr2
    · exact kG3_head '@' _ (by decide)
    · rcases suffix_append_cases hr2 with hr3 | ⟨s, hs, hne, rfl⟩
      · rcases suffix_cons_cases hr3 with rfl | hr4
        · obtain ⟨w0, wt, rfl⟩ := List.exists_cons_of_ne_nil hwne
          rw [List.cons_append]
          exact kG3_second w0 _ (hw w0 (by simp)).2.1
        · rcases suffix_append_cases hr4 with hr5 | ⟨s, hs, hne, rfl⟩
          · rcases suffix_cons_cases hr5 with rfl | hr6
            · obtain ⟨c, t, hceq⟩ := List.exists_cons_of_ne_nil (natToDigits_ne_nil widx)
              have hc : isDigitC c = true := by
                refine natToDigits_all_digit widx c ?_
                rw [hceq]; exact List.mem_cons_self c t
              rw [hceq, List.cons_append]
              exact kG3_second c _ (isDigitC_ne_special c hc).2.1
            · rcases suffix_append_cases hr6 with hr7 | ⟨s, hs, hne, rfl⟩
              · rcases suffix_cons_cases hr7 with rfl | hr8
                · exact kG3_second '%' _ (by decide)
                · rcases suffix_cons_cases hr8 with rfl | hr9
                  · exact kG3_head '%' _ (by decide)
                  · rcases suffix_append_cases hr9 with hr10 | ⟨s, hs, hne, rfl⟩
                    · rcases suffix_cons_cases hr10 with rfl | hr11
                      · rcases hfc with rfl | rfl <;> decide
                      · rcases suffix_cons_cases hr11 with rfl | hr12
                        · rcases hfc with rfl | rfl <;> decide
                        · have h0 := List.suffix_nil.mp hr12
                          subst h0; rfl
                    · obtain ⟨c, t, rfl⟩ := List.exists_cons_of_ne_nil hne
                      have hc := natToDigits_all_digit pid c (hs.subset (List.mem_cons_self c t))
                      rw [List.cons_append]
                      exact kG3_head c _ (isDigitC_ne_special c hc).1
              · obtain ⟨c, t, rfl⟩ := List.exists_cons_of_ne_nil hne
                have hc := natToDigits_all_digit widx c (hs.subset (List.mem_cons_self c t))
                rw [List.cons_append]
                exact kG3_head c _ (isDigitC_ne_special c hc).1
          · obtain ⟨c, t, rfl⟩ := List.exists_cons_of_ne_nil hne
            have hc := hw c (hs.subset (List.mem_cons_self c t))
            rw [List.cons_append]
            exact kG3_head c _ hc.1
      · obtain ⟨c, t, rfl⟩ := List.exists_cons_of_ne_nil hne
        have hc := natToDigits_all_digit wid c (hs.subset (List.mem_cons_self c t))
        rw [List.cons_append]
        exact kG3_head c _ (isDigitC_ne_special c hc).1

/-! Success path: the greedy matcher decodes an encoded line into its fields. -/

theorem head_digit_stop (x : Char) (hx : isDigitC x = false) (t : List Char) :
    ∀ c : Char, (x :: t).head? = some c → isDigitC c = false := by
  intro c hc
  simp only [List.head?_cons, Option.some.injEq] at hc
  subst hc; exact hx

theorem step_g6 (pid : Nat) (fc : Char) (hfc : fc = '0' ∨ fc = '1') :
    greedyPlusCls isDigitC kG7 (natToDigits pid ++ ':' :: [fc]) =
      some (natToDigits pid, [fc]) :=
  greedyPlusCls_append_stop isDigitC kG7 (':' :: [fc]) [fc]
    (head_digit_stop ':' (by decide) [fc]) (kG7_colon_flag fc hfc [])
    (natToDigits pid) (natToDigits_ne_nil pid) (natToDigits_all_digit pid)

theorem step_g5 (widx pid : Nat) (fc : Char) (hfc : fc = '0' ∨ fc = '1') :
    greedyPlusCls isDigitC kG6
        (natToDigits widx ++ ':' :: '%' :: (natToDigits pid ++ ':' :: [fc])) =
      some (natToDigits widx, natToDigits pid, [fc]) :=
  greedyPlusCls_append_stop isDigitC kG6 (':' :: '%' :: (natToDigits pid ++ ':' :: [fc]))
    (natToDigits pid, [fc]) (head_digit_stop ':' (by decide) _)
    (by rw [kG6_colon_pct, step_g6 pid fc hfc])
    (natToDigits widx) (natToDigits_ne_nil widx) (natToDigits_all_digit widx)

theorem step_g4 (wname : List Char) (hwne : wname ≠ [])
    (hw : ∀ c ∈ wname, c ≠ ':' ∧ c ≠ '@' ∧ c ≠ '\n') (widx pid : Nat) (fc : Char)
    (hfc : fc = '0' ∨ fc = '1') :
    greedyPlusCls dotC kG5
        (wname ++ ':' :: (natToDigits widx ++ ':' :: '%' :: (natToDigits pid ++ ':' :: [fc]))) =
      some (wname, natToDigits widx, natToDigits pid, [fc]) :=
  greedyPlusCls_append_kfail dotC kG5
    (':' :: (natToDigits widx ++ ':' :: '%' :: (natToDigits pid ++ ':' :: [fc])))
    (natToDigits widx, natToDigits pid, [fc]) (kG5_fail_suffixes widx pid fc hfc)
    (by rw [kG5_colon, step_g5 widx pid fc hfc])
    wname hwne (fun c hc => by simp [dotC, bne_iff_ne]; exact (hw c hc).2.2)

theorem step_g3 (wid : Nat) (wname : List Char) (hwne : wname ≠ [])
    (hw : ∀ c ∈ wname, c ≠ ':' ∧ c ≠ '@' ∧ c ≠ '\n') (widx pid : Nat) (fc : Char)
    (hfc : fc = '0' ∨ fc = '1') :
    greedyPlusCls isDigitC kG4
        (natToDigits wid ++ ':' :: (wname ++ ':' ::
          (natToDigits widx ++ ':' :: '%' :: (natToDigits pid ++ ':' :: [fc])))) =
      some (natToDigits wid, wname, natToDigits widx, natToDigits pid, [fc]) :=
  greedyPlusCls_append_stop isDigitC kG4
    (':' :: (wname ++ ':' :: (natToDigits widx ++ ':' :: '%' :: (natToDigits pid ++ ':' :: [fc]))))
    (wname, natToDigits widx, natToDigits pid, [fc]) (head_digit_stop ':' (by decide) _)
    (by rw [kG4_colon, step_g4 wname hwne hw widx pid fc hfc])
    (natToDigits wid) (natToDigits_ne_nil wid) (natToDigits_all_digit wid)

theorem step_g2 (sname : List Char) (hsne : sname ≠ []) (hs : ∀ c ∈ sname, c ≠ '\n')
    (wid : Nat) (wname : List Char) (hwne : wname ≠ [])
    (hw : ∀ c ∈ wname, c ≠ ':' ∧ c ≠ '@' ∧ c ≠ '\n') (widx pid : Nat) (fc : Char)
    (hfc : fc = '0' ∨ fc = '1') :
    greedyPlusCls dotC kG3
        (sname ++ ':' :: '@' :: (natToDigits wid ++ ':' :: (wname ++ ':' ::
          (natToDigits widx ++ ':' :: '%' :: (natToDigits pid ++ ':' :: [fc]))))) =
      some (sname, natToDigits wid, wname, natToDigits widx, natToDigits pid, [fc]) :=
  greedyPlusCls_append_kfail dotC kG3
    (':' :: '@' :: (natToDigits wid ++ ':' :: (wname ++ ':' ::
      (natToDigits widx ++ ':' :: '%' :: (natToDigits pid ++ ':' :: [fc])))))
    (natToDigits wid, wname, natToDigits widx, natToDigits pid, [fc])
    (kG3_fail_suffixes wid widx pid wname fc hfc hwne hw)
    (by rw [kG3_colon_at, step_g3 wid wname hwne hw widx pid fc hfc])
    sname hsne (fun c hc => by simp [dotC, bne_iff_ne]; exact hs c hc)

theorem step_g1 (sid : Nat) (sname : List Char) (hsne : sname ≠ [])
    (hs : ∀ c ∈ sname, c ≠ '\n') (wid : Nat) (wname : List Char) (hwne : wname ≠ [])
    (hw : ∀ c ∈ wname, c ≠ ':' ∧ c ≠ '@' ∧ c ≠ '\n') (widx pid : Nat) (fc : Char)
    (hfc : fc = '0' ∨ fc = '1') :
    greedyPlusCls isDigitC kG2
        (natToDigits sid ++ ':' :: (sname ++ ':' :: '@' :: (natToDigits wid ++ ':' ::
          (wname ++ ':' :: (natToDigits widx ++ ':' :: '%' ::
            (natToDigits pid ++ ':' :: [fc])))))) =
      some (natToDigits sid, sname, natToDigits wid, wname, natToDigits widx,
        natToDigits pid, [fc]) :=
  greedyPlusCls_append_stop isDigitC kG2
    (':' :: (sname ++ ':' :: '@' :: (natToDigits wid ++ ':' :: (wname ++ ':' ::
      (natToDigits widx ++ ':' :: '%' :: (natToDigits pid ++ ':' :: [fc]))))))
    (sname, natToDigits wid, wname, natToDigits widx, natToDigits pid, [fc])
    (head_digit_stop ':' (by decide) _)
    (by rw [kG2_colon, step_g2 sname hsne hs wid wname hwne hw widx pid fc hfc])
    (natToDigits sid) (natToDigits_ne_nil sid) (natToDigits_all_digit sid)

theorem flagChar_cases (a : Bool) : flagChar a = '0' ∨ flagChar a = '1' := by
  cases a <;> simp [flagChar]

/-- The regex, anchored at the start, decodes an encoded listing line into
exactly its seven fields. -/
theorem matchAt_encodeLine (f : LineFields) (hf : validFields f) :
    matchAt (encodeLine f) =
      some ⟨natToDigits f.sessionId, f.sname, natToDigits f.windowId, f.wname,
        natToDigits f.windowIndex, natToDigits f.paneId, [flagChar f.active]⟩ := by
  obtain ⟨hsne, hs, hwne, hw, _, _, _, _⟩ := hf
  have h1 : expectChar '$' (encodeLine f) =
      some (natToDigits f.sessionId ++ ':' :: (f.sname ++ ':' :: '@' ::
        (natToDigits f.windowId ++ ':' :: (f.wname ++ ':' ::
          (natToDigits f.windowIndex ++ ':' :: '%' ::
            (natToDigits f.paneId ++ ':' :: [flagChar f.active])))))) := by
    simp [encodeLine, expectChar]
  have h2 := step_g1 f.sessionId f.sname hsne hs f.windowId f.wname hwne hw
    f.windowIndex f.paneId (flagChar f.active) (flagChar_cases f.active)
  simp [matchAt, h1, h2]

/-- A successful anchored match at position zero is what FindStringSubmatch returns. -/
theorem findSubmatch_of_matchAt (l : List Char) (c : Caps) (h : matchAt l = some c) :
    findSubmatch l = some c := by
  cases l with
  | nil => simp [findSubmatch, h]
  | cons x t => simp [findSubmatch, h]

/-- FindStringSubmatch on an encoded line succeeds at position zero. -/
theorem findSubmatch_encodeLine (f : LineFields) (hf : validFields f) :
    findSubmatch (encodeLine f) =
      some ⟨natToDigits f.sessionId, f.sname, natToDigits f.windowId, f.wname,
        natToDigits f.windowIndex, natToDigits f.paneId, [flagChar f.active]⟩ :=
  findSubmatch_of_matchAt (encodeLine f) _ (matchAt_encodeLine f hf)


/-! Line splitting and joining. -/

theorem splitLines_ne_nil (l : List Char) : splitLines l ≠ [] := by
  cases l with
  | nil => simp [splitLines]
  | cons c t =>
    rcases h : splitLines t with _ | ⟨a, as⟩
    · simp [splitLines, h]
    · simp only [splitLines, h]
      split <;> simp

theorem splitLines_no_newline (l : List Char) (h : ∀ c ∈ l, c ≠ '\n') :
    splitLines l = [l] := by
  induction l with
  | nil => rfl
  | cons c t ih =>
    have ht := ih fun x hx => h x (List.mem_cons_of_mem c hx)
    have hc : c ≠ '\n' := h c (List.mem_cons_self c t)
    simp [splitLines, ht, hc]

theorem splitLines_append_newline (l rest : List Char) (h : ∀ c ∈ l, c ≠ '\n') :
    splitLines (l ++ '\n' :: rest) = l :: splitLines rest := by
  induction l with
  | nil =>
    rcases hsr : splitLines rest with _ | ⟨a, as⟩
    · exact absurd hsr (splitLines_ne_nil rest)
    · simp [splitLines, hsr]
  | cons c t ih =>
    have ht := ih fun x hx => h x (List.mem_cons_of_mem c hx)
    have hc : c ≠ '\n' := h c (List.mem_cons_self c t)
    simp [splitLines, ht, hc]

theorem splitLines_joinLines :
    ∀ ls : List (List Char), ls ≠ [] → (∀ l ∈ ls, ∀ c ∈ l, c ≠ '\n') →
      splitLines (joinLines ls) = ls := by
  intro ls
  induction ls with
  | nil => intro hne; exact absurd rfl hne
  | cons l ls ih =>
    intro _ hall
    cases ls with
    | nil => exact splitLines_no_newline l (hall l (List.mem_cons_self l []))
    | cons l2 ls2 =>
      show splitLines (l ++ '\n' :: joinLines (l2 :: ls2)) = l :: l2 :: ls2
      rw [splitLines_append_newline l _ (hall l (List.mem_cons_self l _)),
        ih (by simp) fun x hx c hc => hall x (List.mem_cons_of_mem l hx) c hc]

/-! Decoding encoded and noise lines through the listing loop. -/

theorem parseLines_cons_skip (s : List Char) (h : findSubmatch s = none)
    (rest : List (List Char)) : parseLines (s :: rest) = parseLines rest := by
  simp [parseLines, h]

theorem flagChar_beq_one (a : Bool) : (flagChar a == '1') = a := by
  cases a <;> decide

theorem parseLines_cons_line (f : LineFields) (hf : validFields f)
    (rest : List (List Char)) :
    parseLines (encodeLine f :: rest) =
      (parseLines rest).map fun panes => paneOf f :: panes := by
  obtain ⟨hsne, hs, hwne, hw, h1, h2, h3, h4⟩ := hf
  have hm := findSubmatch_encodeLine f ⟨hsne, hs, hwne, hw, h1, h2, h3, h4⟩
  simp only [parseLines, hm, goAtoi_natToDigits f.sessionId h1,
    goAtoi_natToDigits f.windowId h2, goAtoi_natToDigits f.windowIndex h3,
    goAtoi_natToDigits f.paneId h4]
  simp [paneOf, flagChar_beq_one]

theorem parseLines_items :
    ∀ items : List (LineFields ⊕ List Char), (∀ it ∈ items, GoodItem it) →
      parseLines (items.map renderItem) = .ok (items.filterMap itemPane) := by
  intro items
  induction items with
  | nil => intro _; rfl
  | cons it its ih =>
    intro h
    have hits := ih fun x hx => h x (List.mem_cons_of_mem it hx)
    cases it with
    | inl f =>
      have hf : validFields f := h (.inl f) (List.mem_cons_self _ _)
      simp only [List.map_cons, renderItem]
      rw [parseLines_cons_line f hf, hits]
      simp [itemPane, Except.map]
    | inr s =>
      have hg : findSubmatch s = none ∧ ∀ c ∈ s, c ≠ '\n' :=
        h (.inr s) (List.mem_cons_self _ _)
      simp only [List.map_cons, renderItem]
      rw [parseLines_cons_skip s hg.1, hits]
      simp [itemPane]

theorem encodeLine_no_newline (f : LineFields) (hf : validFields f) :
    ∀ c ∈ encodeLine f, c ≠ '\n' := by
  obtain ⟨hsne, hs, hwne, hw, _, _, _, _⟩ := hf
  have hdig : ∀ n : Nat, ∀ x ∈ natToDigits n, x ≠ '\n' := fun n x hx =>
    (isDigitC_ne_special x (natToDigits_all_digit n x hx)).2.2.2.1
  intro c hc
  simp only [encodeLine, List.mem_cons, List.mem_append, List.mem_singleton] at hc
  rcases hc with rfl | hc | rfl | hc | rfl | rfl | hc | rfl | hc | rfl | hc | rfl | rfl | hc |
    rfl | hfl
  · decide
  · exact hdig _ _ hc
  · decide
  · exact hs _ hc
  · decide
  · decide
  · exact hdig _ _ hc
  · decide
  · exact (hw _ hc).2.2
  · decide
  · exact hdig _ _ hc
  · decide
  · decide
  · exact hdig _ _ hc
  · decide
  · rcases hfl with rfl | hfl
    · rcases flagChar_cases f.active with h0 | h0 <;> rw [h0] <;> decide
    · simp at hfl

/-! Remaining supporting lemmas. -/

theorem goAtoi_error (l : List Char) (e : GoError) (h : goAtoi l = .error e) :
    e = .atoiErr := by
  by_cases hb : (goAtoiFull l).2 <;> simp [goAtoi, hb] at h
  exact h.symm

theorem parseLines_error :
    ∀ lines : List (List Char), (∃ l ∈ lines, lineAtoiFails l = true) →
      parseLines lines = .error .atoiErr := by
  intro lines
  induction lines with
  | nil => intro h; simp at h
  | cons l rest ih =>
    intro h
    rcases hm : findSubmatch l with _ | c
    · have hrest : ∃ x ∈ rest, lineAtoiFails x = true := by
        rcases h with ⟨x, hx, hfx⟩
        rcases List.mem_cons.mp hx with rfl | hxr
        · simp [lineAtoiFails, hm] at hfx
        · exact ⟨x, hxr, hfx⟩
      rw [parseLines_cons_skip l hm]
      exact ih hrest
    · rcases e1 : goAtoi c.g1 with e | v1
      · simp [parseLines, hm, e1, goAtoi_error c.g1 e e1]
      rcases e3 : goAtoi c.g3 with e | v3
      · simp [parseLines, hm, e1, e3, goAtoi_error c.g3 e e3]
      rcases e5 : goAtoi c.g5 with e | v5
      · simp [parseLines, hm, e1, e3, e5, goAtoi_error c.g5 e e5]
      rcases e6 : goAtoi c.g6 with e | v6
      · simp [parseLines, hm, e1, e3, e5, e6, goAtoi_error c.g6 e e6]
      have hrest : ∃ x ∈ rest, lineAtoiFails x = true := by
        rcases h with ⟨x, hx, hfx⟩
        rcases List.mem_cons.mp hx with rfl | hxr
        · simp [lineAtoiFails, hm, e1, e3, e5, e6, isAtoiError] at hfx
        · exact ⟨x, hxr, hfx⟩
      simp only [parseLines, hm, e1, e3, e5, e6]
      rw [ih hrest]
      rfl

theorem splitN2_first (a b : List Char) (ha : 'x' ∉ a) :
    splitN2 'x' (a ++ 'x' :: b) = (a, some b) := by
  induction a with
  | nil => simp [splitN2]
  | cons c t ih =>
    have hc : c ≠ 'x' := by rintro rfl; exact ha (List.mem_cons_self _ _)
    have ht := ih fun hx => ha (List.mem_cons_of_mem c hx)
    simp [splitN2, hc, ht]

theorem splitN2_none_iff (sep : Char) (l : List Char) :
    (splitN2 sep l).2 = none ↔ sep ∉ l := by
  induction l with
  | nil => simp [splitN2]
  | cons c t ih =>
    by_cases hc : c = sep
    · subst hc; simp [splitN2]
    · simp [splitN2, hc, ih]
      intro _ h
      exact hc h.symm

/-! Claim theorems. -/

/-- C2: for listing output made of N well-formed lines
`$sid:sname:@wid:wname:widx:%pid:flag` (all numeric fields decodable) interleaved
with M lines the regex does not match, ListPanes returns exactly the N decoded
Pane records in line order (Active true exactly when the flag is `1`), and the
noise lines are skipped without an error. -/
theorem ListPanes_wellformed_and_noise (scope : List String)
    (items : List (LineFields ⊕ List Char)) (h : ∀ it ∈ items, GoodItem it) :
    ListPanes scope (constRunner (joinLines (items.map renderItem)) [] none) =
      .ok (items.filterMap itemPane) := by
  have hbody : ListPanes scope (constRunner (joinLines (items.map renderItem)) [] none) =
      parseLines (splitLines (joinLines (items.map renderItem))) := rfl
  rw [hbody]
  cases items with
  | nil => rfl
  | cons it its =>
    have hnl : ∀ l ∈ (it :: its).map renderItem, ∀ c ∈ l, c ≠ '\n' := by
      intro x hx c hc
      simp only [List.mem_map] at hx
      obtain ⟨itx, hitx, rfl⟩ := hx
      cases itx with
      | inl f => exact encodeLine_no_newline f (h (.inl f) hitx) c hc
      | inr s => exact (h (.inr s) hitx).2 c hc
    rw [splitLines_joinLines ((it :: its).map renderItem) (by simp) hnl]
    exact parseLines_items (it :: its) h

/-- C2 witness: the spec's end-to-end example with a trailing blank line. -/
theorem ListPanes_wellformed_and_noise_witness :
    (∀ it ∈ ([.inl ⟨1, "main".data, 1, "shell".data, 0, 0, true⟩,
              .inl ⟨1, "main".data, 1, "shell".data, 0, 1, false⟩,
              .inr []] : List (LineFields ⊕ List Char)), GoodItem it) ∧
    ListPanes [] (constRunner (joinLines
        (([.inl ⟨1, "main".data, 1, "shell".data, 0, 0, true⟩,
           .inl ⟨1, "main".data, 1, "shell".data, 0, 1, false⟩,
           .inr []] : List (LineFields ⊕ List Char)).map renderItem)) [] none) =
      .ok [⟨0, 1, "main", 1, "shell", 0, true⟩, ⟨1, 1, "main", 1, "shell", 0, false⟩] :=
  ⟨by decide, ListPanes_wellformed_and_noise [] _ (by decide)⟩

/-- C1 counterexample: on the listing line `$x:main:@1:shell:0:%0:1` (non-numeric
session id) ListPanes returns the empty listing with a nil error — the line does
not match the structural pattern, so it is silently skipped rather than reported. -/
theorem ListPanes_nonnumeric_counterexample :
    ListPanes [] (constRunner ("$x:main:@1:shell:0:%0:1".data) [] none) = .ok [] := rfl

/-- C1 (amended): a line with a non-numeric session-id field fails the structural
match and is silently skipped (empty result, nil error); a numeric parse failure
on a structurally matched line — reachable as an out-of-range value, since
matched fields are digit runs — aborts the whole listing call with the Atoi
error, discarding all panes parsed from other lines. -/
theorem ListPanes_skip_nonnumeric_abort_overflow :
    (ListPanes [] (constRunner ("$x:main:@1:shell:0:%0:1".data) [] none) = .ok []) ∧
    ∀ (scope : List String) (st out : List Char),
      (∃ l ∈ splitLines out, lineAtoiFails l = true) →
      ListPanes scope (constRunner out st none) = .error .atoiErr := by
  refine ⟨rfl, ?_⟩
  intro scope st out h
  have hbody : ListPanes scope (constRunner out st none) =
      parseLines (splitLines out) := rfl
  rw [hbody]
  exact parseLines_error (splitLines out) h

/-- C1 witness: a session id beyond the 64-bit range matches structurally but
fails Atoi, so the whole call errors even though a well-formed line precedes it. -/
theorem ListPanes_skip_nonnumeric_abort_overflow_witness :
    (∃ l ∈ splitLines
        ("$1:main:@1:shell:0:%0:1\n$99999999999999999999:main:@1:shell:0:%0:1".data),
      lineAtoiFails l = true) ∧
    ListPanes [] (constRunner
        ("$1:main:@1:shell:0:%0:1\n$99999999999999999999:main:@1:shell:0:%0:1".data)
        [] none) = .error .atoiErr :=
  ⟨by decide, ListPanes_skip_nonnumeric_abort_overflow.2 [] [] _ (by decide)⟩

/-- C3: MovePane overwrites the source pane's WindowName and WindowId with the
destination's — whether the Command Runner succeeded or failed — leaves the
source's ID, SessionId, SessionName, WindowIndex and Active fields unchanged
(the pane index is not recomputed), and does not modify the destination pane. -/
theorem MovePane_frame_effect (p t : Pane) (focus : Bool) (runner : Runner) :
    (p.MovePane t focus runner).1.WindowName = t.WindowName ∧
    (p.MovePane t focus runner).1.WindowId = t.WindowId ∧
    (p.MovePane t focus runner).1.ID = p.ID ∧
    (p.MovePane t focus runner).1.SessionId = p.SessionId ∧
    (p.MovePane t focus runner).1.SessionName = p.SessionName ∧
    (p.MovePane t focus runner).1.WindowIndex = p.WindowIndex ∧
    (p.MovePane t focus runner).1.Active = p.Active ∧
    (p.MovePane t focus runner).2.1 = t :=
  ⟨rfl, rfl, rfl, rfl, rfl, rfl, rfl, rfl⟩

/-- C4: SetFocus issues exactly two runner invocations in order — select-window
on `SessionName:WindowId`, then select-pane on `SessionName:WindowId.ID` — both
are always attempted, and the returned error is exactly the second invocation's
(so nil whenever select-pane succeeds, even if select-window failed). -/
theorem SetFocus_two_commands_second_error (p : Pane) (runner : Runner) :
    p.SetFocus runner =
      ([["select-window", "-t", p.SessionName ++ ":" ++ intToStr p.WindowId],
        ["select-pane", "-t",
          p.SessionName ++ ":" ++ intToStr p.WindowId ++ "." ++ intToStr p.ID]],
       (runner ["select-pane", "-t",
          p.SessionName ++ ":" ++ intToStr p.WindowId ++ "." ++ intToStr p.ID]).2.2) := rfl

/-- C5 counterexample: an out-of-range width part is a parse failure of a numeric
part, yet the width degrades to the clamped maximum 2^63-1, not to 0. -/
theorem GetCurrentSize_overflow_counterexample :
    (goAtoiFull ("99999999999999999999".data)).2 = false ∧
    Pane.GetCurrentSize ⟨0, 0, "main", 0, "w", 0, true⟩
        (constRunner ("99999999999999999999x24\n".data) [] none) =
      some (9223372036854775807, 24, none) ∧
    (9223372036854775807 : Int) ≠ 0 := ⟨by decide, by decide, by decide⟩

/-- C5 (amended): on runner success GetCurrentSize strips one trailing character,
splits at the first `x` and Atoi-parses both halves keeping only the values:
stdout "80x24" followed by a line terminator yields (80, 24, nil); a parse
failure of a numeric part produces no error but degrades that dimension to the
Atoi result value — 0 for a syntactically invalid part, the clamped extreme for
an out-of-range part. -/
theorem GetCurrentSize_strip_split_parse (p : Pane) (st a b : List Char)
    (ha : 'x' ∉ a) :
    p.GetCurrentSize (constRunner (a ++ 'x' :: b ++ ['\n']) st none) =
      some ((goAtoiFull a).1, (goAtoiFull b).1, none) ∧
    (∀ l : List Char, (goAtoiFull l).2 = false →
      (goAtoiFull l).1 = 0 ∨ (goAtoiFull l).1 = 2 ^ 63 - 1 ∨ (goAtoiFull l).1 = -(2 ^ 63)) ∧
    p.GetCurrentSize (constRunner ("80x24\n".data) st none) = some (80, 24, none) := by
  refine ⟨?_, ?_, rfl⟩
  · have hout : (a ++ 'x' :: b ++ ['\n']) ≠ [] := by simp
    have hdrop : (a ++ 'x' :: b ++ ['\n']).dropLast = a ++ 'x' :: b := by
      rw [show a ++ 'x' :: b ++ ['\n'] = (a ++ 'x' :: b) ++ ['\n'] by simp]
      exact List.dropLast_concat
    have hsplit : splitN2 'x' (a ++ 'x' :: b) = (a, some b) := splitN2_first a b ha
    rw [show p.GetCurrentSize (constRunner (a ++ 'x' :: b ++ ['\n']) st none) =
        (if (a ++ 'x' :: b ++ ['\n']) = [] then none
         else match splitN2 'x' ((a ++ 'x' :: b ++ ['\n']).dropLast) with
           | (w, some h) => some ((goAtoiFull w).1, (goAtoiFull h).1, none)
           | (_, none) => none) from rfl]
    rw [if_neg hout, hdrop, hsplit]
  · intro l hl
    cases l with
    | nil => left; rfl
    | cons c t =>
      simp only [goAtoiFull] at hl ⊢
      split_ifs at hl ⊢ <;> simp_all

/-- C5 witness: instantiation at stdout "80x24" plus line terminator. -/
theorem GetCurrentSize_strip_split_parse_witness :
    ('x' ∉ ("80".data : List Char)) ∧
    Pane.GetCurrentSize ⟨0, 0, "main", 0, "w", 0, true⟩
        (constRunner ("80".data ++ 'x' :: "24".data ++ ['\n']) [] none) =
      some ((goAtoiFull ("80".data)).1, (goAtoiFull ("24".data)).1, none) :=
  ⟨by decide, (GetCurrentSize_strip_split_parse ⟨0, 0, "main", 0, "w", 0, true⟩ []
    ("80".data) ("24".data) (by decide)).1⟩

/-- C6 counterexample: stdout without a trailing line terminator still loses its
final character — "/home/user" comes back as "/home/use", not as the claimed
result of stripping one trailing line terminator. -/
theorem GetCurrentPath_no_terminator_counterexample :
    Pane.GetCurrentPath ⟨0, 0, "main", 0, "w", 0, true⟩
        (constRunner ("/home/user".data) [] none) =
      some ("/home/use".data, none) ∧
    ("/home/use".data : List Char) ≠ "/home/user".data := ⟨by decide, by decide⟩

/-- C6 (amended): when the runner succeeds GetCurrentPath unconditionally removes
the final character of stdout — so stdout ending in a line terminator comes back
with exactly that terminator removed ("/home/user" from "/home/user" plus a
newline) and a nil error — and when the runner fails it returns the empty string
with the runner's error. -/
theorem GetCurrentPath_strip_last (p : Pane) (st s out : List Char) (e : String) :
    (p.GetCurrentPath (constRunner (s ++ ['\n']) st none) = some (s, none)) ∧
    (out ≠ [] → p.GetCurrentPath (constRunner out st none) = some (out.dropLast, none)) ∧
    (p.GetCurrentPath (constRunner out st (some e)) = some ([], some e)) := by
  refine ⟨?_, ?_, rfl⟩
  · have hne : s ++ ['\n'] ≠ [] := by simp
    rw [show p.GetCurrentPath (constRunner (s ++ ['\n']) st none) =
        (if (s ++ ['\n']) = [] then none else some ((s ++ ['\n']).dropLast, none)) from rfl]
    rw [if_neg hne, List.dropLast_concat]
  · intro h
    rw [show p.GetCurrentPath (constRunner out st none) =
        (if out = [] then none else some (out.dropLast, none)) from rfl]
    rw [if_neg h]

/-- C6 witness: instantiation at the spec's example output and a failing runner. -/
theorem GetCurrentPath_strip_last_witness :
    Pane.GetCurrentPath ⟨0, 0, "main", 0, "w", 0, true⟩
        (constRunner ("/home/user".data ++ ['\n']) [] none) =
      some ("/home/user".data, none) ∧
    ("abc".data : List Char) ≠ [] ∧
    Pane.GetCurrentPath ⟨0, 0, "main", 0, "w", 0, true⟩
        (constRunner ("abc".data) [] none) =
      some (("abc".data : List Char).dropLast, none) :=
  ⟨(GetCurrentPath_strip_last ⟨0, 0, "main", 0, "w", 0, true⟩ [] ("/home/user".data)
      ("abc".data) "boom").1,
   by decide,
   (GetCurrentPath_strip_last ⟨0, 0, "main", 0, "w", 0, true⟩ [] ("/home/user".data)
      ("abc".data) "boom").2.1 (by decide)⟩

/-- C7: Capture returns the captured stderr text together with the error when the
Command Runner fails, and returns stdout exactly as received — trailing line
terminator preserved — with a nil error when it succeeds. -/
theorem Capture_stderr_on_failure_stdout_verbatim (p : Pane) (out st : List Char)
    (e : String) :
    p.Capture (constRunner out st (some e)) = (st, some e) ∧
    p.Capture (constRunner out st none) = (out, none) := ⟨rfl, rfl⟩

/-- C8: target encoding is a pure function of SessionName, WindowId and ID:
SessionName "main", WindowId 2, ID 1 encode to pane target "main:2.1" and window
target "main:2", and panes agreeing on those fields get equal target strings. -/
theorem target_encoding_deterministic :
    (paneTarget ⟨1, 1, "main", 2, "w", 0, true⟩ = "main:2.1" ∧
     windowTarget ⟨1, 1, "main", 2, "w", 0, true⟩ = "main:2") ∧
    ∀ p q : Pane, p.SessionName = q.SessionName → p.WindowId = q.WindowId →
      p.ID = q.ID → paneTarget p = paneTarget q ∧ windowTarget p = windowTarget q := by
  refine ⟨⟨by decide, by decide⟩, ?_⟩
  intro p q h1 h2 h3
  constructor
  · rw [paneTarget, paneTarget, h1, h2, h3]
  · rw [windowTarget, windowTarget, h1, h2]

/-- C8 witness: two panes equal on the identity fields and different elsewhere. -/
theorem target_encoding_deterministic_witness :
    paneTarget ⟨1, 3, "main", 2, "alpha", 0, true⟩ =
      paneTarget ⟨1, 9, "main", 2, "beta", 7, false⟩ ∧
    windowTarget ⟨1, 3, "main", 2, "alpha", 0, true⟩ =
      windowTarget ⟨1, 9, "main", 2, "beta", 7, false⟩ :=
  target_encoding_deterministic.2 _ _ rfl rfl rfl

/-- C9: with a successful runner, GetCurrentSize returns no value (the slice or
index panic) exactly when stdout is empty or the stripped stdout contains no
`x`; under the complementary precondition it always returns a value. -/
theorem GetCurrentSize_panic_iff (p : Pane) (st out : List Char) :
    p.GetCurrentSize (constRunner out st none) = none ↔
      out = [] ∨ 'x' ∉ out.dropLast := by
  have hbody : p.GetCurrentSize (constRunner out st none) =
      (if out = [] then none
       else match splitN2 'x' out.dropLast with
         | (w, some h) => some ((goAtoiFull w).1, (goAtoiFull h).1, none)
         | (_, none) => none) := rfl
  rw [hbody]
  by_cases hout : out = []
  · simp [hout]
  · rcases hsp : splitN2 'x' out.dropLast with ⟨a, b⟩
    cases b with
    | none =>
      have hx : 'x' ∉ out.dropLast := (splitN2_none_iff 'x' out.dropLast).mp (by rw [hsp])
      simp [hout, hsp, hx]
    | some bb =>
      have hx : 'x' ∈ out.dropLast := by
        by_contra hc
        have h0 := (splitN2_none_iff 'x' out.dropLast).mpr hc
        rw [hsp] at h0
        simp at h0
      simp [hout, hsp, hx]

/-- C10: with a successful runner GetCurrentPath returns no value (the slice
panic) exactly when stdout is empty, and on non-empty stdout removes the final
character whatever it is. -/
theorem GetCurrentPath_panic_iff (p : Pane) (st out : List Char) :
    (p.GetCurrentPath (constRunner out st none) = none ↔ out = []) ∧
    (out ≠ [] → p.GetCurrentPath (constRunner out st none) = some (out.dropLast, none)) := by
  have hbody : p.GetCurrentPath (constRunner out st none) =
      (if out = [] then none else some (out.dropLast, none)) := rfl
  rw [hbody]
  by_cases h : out = []
  · subst h
    exact ⟨by simp, fun hc => absurd rfl hc⟩
  · exact ⟨by simp [h], fun _ => by rw [if_neg h]⟩

/-- C10 witness: two-character stdout is accepted and loses its final character. -/
theorem GetCurrentPath_panic_iff_witness :
    ("ab".data : List Char) ≠ [] ∧
    Pane.GetCurrentPath ⟨0, 0, "main", 0, "w", 0, true⟩
        (constRunner ("ab".data) [] none) =
      some (("ab".data : List Char).dropLast, none) :=
  ⟨by decide, (GetCurrentPath_panic_iff ⟨0, 0, "main", 0, "w", 0, true⟩ []
    ("ab".data)).2 (by decide)⟩
